import Mathlib

/-!
Shallow embedding of `src/src/debouncer.h`.

The header defines a single entry point

  template <typename Func>
  typename function_traits<std::decay_t<Func>>::signature
  debounce(Func&& func, QObject* context, int durationMs = 300)

which returns a lambda.  Invoking the lambda looks up a `QTimer` stored as a
dynamic property of `context` (under a string key built from the context's
address and a counter), creates it on first use (`setInterval(durationMs)`,
`setSingleShot(true)`, parented to `context`), disconnects every `timeout`
connection of the timer, connects a fresh action capturing the current
arguments, and restarts the timer.

The embedding models the relevant Qt machinery explicitly:

* `Timer` carries the interval fixed at creation, the single-shot flag, the
  parent object (the context, identified by its address), the list of live
  `timeout` connections, and an optional absolute deadline (`none` when the
  timer is stopped).
* `DState` is the world state: current time, the property bags of all live
  objects (a single association list from keys to timer ids — each key embeds
  the owning context's address, exactly as the C++ property name embeds
  `reinterpret_cast<uintptr_t>(context)`), the timer heap, a fresh-id counter,
  the set of live owner objects, and the trace of executed calls of wrapped
  functions, each recorded as `(fire time, function id, argument tuple)`.
* Wrapped callables are opaque: a callable is a `funcId : Nat`, its argument
  tuples are `List Nat`.  A callable *type* (a C++ closure type) is a
  `ftype : Nat`; the `static std::size_t debounce_counter` local of the
  function template `debounce` is one counter *per specialization*, i.e. per
  callable type, modelled by the association list in `ConsState`.
* The two `assert`s of `debounce` are modelled by returning `none`
  (null context is address `0`).
* Calling a wrapper whose context has been destroyed dereferences a dangling
  pointer in C++; the embedding makes it a no-op, and no theorem relies on it.
* Destroying an owner destroys its child timers (and with them their
  connections) and its property bag entries, mirroring `QObject` teardown.
-/

namespace Debouncer

/-- The string key `"_debounce_timer_" + to_string(context) + "_" +
to_string(counter)`, represented by its two numeric components. -/
structure Key where
  ctxPtr : Nat
  counter : Nat
  deriving DecidableEq

/-- A `timeout` connection: the functor connected to the timer, capturing the
shared wrapped callable and the pending argument tuple. -/
structure Action where
  funcId : Nat
  args : List Nat
  deriving DecidableEq

/-- A `QTimer`: interval and single-shot flag as configured, parent object,
live `timeout` connections, and the absolute time at which it will next fire
(`none` when stopped). -/
structure Timer where
  interval : Int
  singleShot : Bool
  parent : Nat
  connections : List Action
  deadline : Option Nat
  deriving DecidableEq

/-- The lambda returned by `debounce`: its captures `shared_func`, `context`,
`durationMs` and `timerPropertyName`. -/
structure Wrapper where
  funcId : Nat
  ctx : Nat
  durationMs : Int
  key : Key
  deriving DecidableEq

/-- The per-specialization `static std::size_t debounce_counter` locals:
one counter per callable type. -/
structure ConsState where
  counters : List (Nat × Nat)
  deriving DecidableEq

/-- The world state. -/
structure DState where
  time : Nat
  props : List (Key × Nat)
  timers : List (Nat × Timer)
  nextTimerId : Nat
  owners : List Nat
  trace : List (Nat × Nat × List Nat)
  deriving DecidableEq

/-- Value of the static counter for a callable type (a fresh specialization
starts at `0`). -/
def getCounter (ftype : Nat) : List (Nat × Nat) → Nat
  | [] => 0
  | (f, n) :: rest => if f = ftype then n else getCounter ftype rest

/-- `debounce_counter++` for the given specialization. -/
def bumpCounter (ftype : Nat) : List (Nat × Nat) → List (Nat × Nat)
  | [] => [(ftype, 1)]
  | (f, n) :: rest =>
      if f = ftype then (f, n + 1) :: rest else (f, n) :: bumpCounter ftype rest

/-- `debounce(func, context, durationMs)`.  `ftype` is the callable's type
(the template specialization being run), `fid` identifies the callable value,
`ctx` is the context's address (`0` is `nullptr`).  Returns the wrapper and
the updated static-counter state, or `none` when an `assert` fires
(`context != nullptr`, `durationMs >= 0`). -/
def debounce (ftype fid ctx : Nat) (durationMs : Int) (cs : ConsState) :
    Option (Wrapper × ConsState) :=
  if ctx = 0 then none
  else if durationMs < 0 then none
  else
    some (⟨fid, ctx, durationMs, ⟨ctx, getCounter ftype cs.counters⟩⟩,
          ⟨bumpCounter ftype cs.counters⟩)

/-- `context->property(timerPropertyName)`. -/
def findProp (k : Key) : List (Key × Nat) → Option Nat
  | [] => none
  | (k2, tid) :: rest => if k2 = k then some tid else findProp k rest

/-- Look up a timer by id. -/
def findTimer (tid : Nat) : List (Nat × Timer) → Option Timer
  | [] => none
  | (i, tm) :: rest => if i = tid then some tm else findTimer tid rest

/-- Replace the timer stored under an id. -/
def setTimer (tid : Nat) (tm : Timer) : List (Nat × Timer) → List (Nat × Timer)
  | [] => []
  | (i, tm2) :: rest =>
      if i = tid then (i, tm) :: rest else (i, tm2) :: setTimer tid tm rest

/-- `QObject::disconnect(timer, &QTimer::timeout, nullptr, nullptr)`:
drops every `timeout` connection of the timer. -/
def disconnectAll (tm : Timer) : Timer := { tm with connections := [] }

/-- `QObject::connect(timer, &QTimer::timeout, context, lambda)`:
appends one more `timeout` connection. -/
def connectAction (a : Action) (tm : Timer) : Timer :=
  { tm with connections := tm.connections ++ [a] }

/-- `timer->start()`: (re)starts the countdown at the timer's configured
interval, also when the timer is already running. -/
def startTimer (now : Nat) (tm : Timer) : Timer :=
  { tm with deadline := some (now + tm.interval.toNat) }

/-- `new QTimer(context); setInterval(durationMs); setSingleShot(true)`. -/
def newTimer (interval : Int) (parent : Nat) : Timer :=
  ⟨interval, true, parent, [], none⟩

/-- The property lookup at the top of the wrapper body:
`qobject_cast<QTimer*>(context->property(name).value<QObject*>())`.
Yields the timer id and timer when the property holds a live timer. -/
def lookupTimer (w : Wrapper) (s : DState) : Option (Nat × Timer) :=
  match findProp w.key s.props with
  | none => none
  | some tid =>
      match findTimer tid s.timers with
      | none => none
      | some tm => some (tid, tm)

/-- One invocation of the wrapper lambda with argument tuple `args`.
Mirrors the lambda body line by line: look up the timer, create and register
it if absent, disconnect all `timeout` connections, connect the new action
capturing `args`, restart the timer.  Invoking a wrapper whose context was
destroyed is undefined behaviour in the source (dangling `context`); it is
modelled as a no-op and never exercised. -/
def callWrapper (w : Wrapper) (args : List Nat) (s : DState) : DState :=
  if s.owners.contains w.ctx then
    let (tid, tm, s1) :=
      match lookupTimer w s with
      | some (tid, tm) => (tid, tm, s)
      | none =>
          (s.nextTimerId, newTimer w.durationMs w.ctx,
           { s with
              props := (w.key, s.nextTimerId) :: s.props,
              timers := (s.nextTimerId, newTimer w.durationMs w.ctx) :: s.timers,
              nextTimerId := s.nextTimerId + 1 })
    { s1 with
        timers := setTimer tid
          (startTimer s1.time (connectAction ⟨w.funcId, args⟩ (disconnectAll tm)))
          s1.timers }
  else s

/-- A running timer reaches its deadline `dl`: it stops (single shot) and each
of its `timeout` connections runs, executing `std::apply(*shared_func, *args)`
— recorded in the trace.  The connections themselves stay attached. -/
def fireOne (tid : Nat) (dl : Nat) (s : DState) : DState :=
  match findTimer tid s.timers with
  | none => s
  | some tm =>
      { s with
          timers := setTimer tid { tm with deadline := none } s.timers,
          trace := s.trace ++ tm.connections.map fun a => (dl, a.funcId, a.args) }

/-- Is a deadline due before the bound (`none` = no bound)? -/
def dueB (bound : Option Nat) (dl : Nat) : Bool :=
  match bound with
  | none => true
  | some b => decide (dl < b)

/-- Earliest due `(deadline, timer id)` among the running timers, if any. -/
def nextDue (bound : Option Nat) : List (Nat × Timer) → Option (Nat × Nat)
  | [] => none
  | (tid, tm) :: rest =>
      let r := nextDue bound rest
      match tm.deadline with
      | none => r
      | some dl =>
          if dueB bound dl then
            match r with
            | none => some (dl, tid)
            | some (rdl, rtid) =>
                if dl ≤ rdl then some (dl, tid) else some (rdl, rtid)
          else r

/-- The event loop delivers, in deadline order, every timer firing due before
the bound.  Firing a timer stops it and starts no new timer, so the number of
timers bounds the number of firings. -/
def fireDue (bound : Option Nat) : Nat → DState → DState
  | 0, s => s
  | fuel + 1, s =>
      match nextDue bound s.timers with
      | none => s
      | some (dl, tid) => fireDue bound fuel (fireOne tid dl s)

/-- `QObject` teardown of an owner: the owner dies, its child timers are
destroyed (taking their connections with them), and its dynamic properties
vanish (every key minted for this context embeds its address). -/
def destroyOwner (o : Nat) (s : DState) : DState :=
  { s with
      owners := s.owners.filter fun o2 => o2 ≠ o,
      timers := s.timers.filter fun p => p.2.parent ≠ o,
      props := s.props.filter fun p => p.1.ctxPtr ≠ o }

/-- External events: a wrapper invocation, or destruction of an owner, each
stamped with the absolute time at which it happens. -/
inductive Event where
  | call (w : Wrapper) (args : List Nat) (t : Nat)
  | destroy (owner : Nat) (t : Nat)
  deriving DecidableEq

/-- Process one event: first the event loop fires every timer whose deadline
lies strictly before the event's time, then the event itself runs. -/
def step (e : Event) (s : DState) : DState :=
  match e with
  | .call w args t =>
      let s1 := fireDue (some t) s.timers.length s
      callWrapper w args { s1 with time := t }
  | .destroy o t =>
      let s1 := fireDue (some t) s.timers.length s
      destroyOwner o { s1 with time := t }

/-- Let the event loop run to quiescence: every still-running timer fires. -/
def flushAll (s : DState) : DState :=
  fireDue none s.timers.length s

/-- Run a time-ordered list of events, then let the event loop drain. -/
def run (es : List Event) (s : DState) : DState :=
  flushAll (es.foldl (fun s2 e => step e s2) s)

/-- A fresh world containing one live owner object and nothing else. -/
def initState (owner : Nat) : DState :=
  ⟨0, [], [], 0, [owner], []⟩

/-- Fresh static counters: no specialization of `debounce` entered yet. -/
def initCons : ConsState := ⟨[]⟩

/-- The timer of a wrapper right after a wrapper call at time `t` with
arguments `a`: restarted, holding exactly the one fresh connection. -/
def pendingTimer (d : Int) (owner fid : Nat) (a : List Nat) (t : Nat) : Timer :=
  ⟨d, true, owner, [⟨fid, a⟩], some (t + d.toNat)⟩

/-- World state of a single-wrapper run whose most recent wrapper call was at
time `t` with arguments `a` and whose timer is still counting down. -/
def midState (owner : Nat) (k : Key) (d : Int) (fid : Nat) (t : Nat) (a : List Nat)
    (tr : List (Nat × Nat × List Nat)) : DState :=
  ⟨t, [(k, 0)], [(0, pendingTimer d owner fid a t)], 1, [owner], tr⟩

/-- World state right after that timer fired: the firing is on the trace, the
timer is stopped, and — as in the source, which never disconnects inside the
timeout handler — the connection and its captured arguments stay attached. -/
def firedState (owner : Nat) (k : Key) (d : Int) (fid : Nat) (t : Nat) (a : List Nat)
    (tr : List (Nat × Nat × List Nat)) : DState :=
  ⟨t, [(k, 0)], [(0, ⟨d, true, owner, [⟨fid, a⟩], none⟩)], 1, [owner],
   tr ++ [(t + d.toNat, fid, a)]⟩

/-- The call times in the list are ascending, starting no earlier than `t`. -/
def monoFrom (t : Nat) : List (Nat × List Nat) → Bool
  | [] => true
  | (t2, _) :: rest => decide (t ≤ t2) && monoFrom t2 rest

/-- Every consecutive gap (starting from a call at time `t`) is below `dN`:
the calls form one burst. -/
def gapsBelowFrom (dN t : Nat) : List (Nat × List Nat) → Bool
  | [] => true
  | (t2, _) :: rest => decide (t2 - t < dN) && gapsBelowFrom dN t2 rest

/-- Time and arguments of the last call of the run (the call whose firing is
still pending at the end): the last list entry, or `(t, a)` for the empty
list. -/
def pendingAfter (t : Nat) (a : List Nat) : List (Nat × List Nat) → Nat × List Nat
  | [] => (t, a)
  | (t2, a2) :: rest => pendingAfter t2 a2 rest

/-- The firings that happen *during* a single-wrapper run: the pending call
at time `t` with arguments `a` fires (at `t + dN`) exactly when the next call
comes more than `dN` later; the final pending call is not included. -/
def firedDuring (fid dN : Nat) (t : Nat) (a : List Nat) :
    List (Nat × List Nat) → List (Nat × Nat × List Nat)
  | [] => []
  | (t2, a2) :: rest =>
      (if t + dN < t2 then [(t + dN, fid, a)] else []) ++ firedDuring fid dN t2 a2 rest

/-- Invariant: every timer carries at most one `timeout` connection. -/
def connInv (s : DState) : Prop :=
  ∀ p ∈ s.timers, p.2.connections.length ≤ 1

/-- A successful `debounce` on fresh counter state yields the wrapper with
counter `0`, and certifies both asserted preconditions. -/
lemma debounce_initCons_eq (ftype fid ctx : Nat) (d : Int) (w : Wrapper) (cs : ConsState)
    (hw : debounce ftype fid ctx d initCons = some (w, cs)) :
    w = ⟨fid, ctx, d, ⟨ctx, 0⟩⟩ ∧ ctx ≠ 0 ∧ 0 ≤ d := by
  by_cases h0 : ctx = 0
  · simp [debounce, h0] at hw
  · by_cases hd : d < 0
    · simp [debounce, h0, hd] at hw
    · simp [debounce, h0, hd, initCons, getCounter] at hw
      exact ⟨hw.1.symm, h0, not_lt.mp hd⟩

/-- The first wrapper call creates the timer, registers it in the property
bag, connects the action and starts the countdown. -/
lemma step_call_init (owner fid : Nat) (d : Int) (k : Key) (a : List Nat) (t : Nat) :
    step (.call ⟨fid, owner, d, k⟩ a t) (initState owner)
      = midState owner k d fid t a [] := by
  simp [step, initState, fireDue, callWrapper, lookupTimer, findProp, setTimer,
        startTimer, connectAction, disconnectAll, newTimer, midState, pendingTimer]

/-- A wrapper call while the timer is counting down: the pending firing
happens first exactly when its deadline precedes the new call; the call then
replaces the connection and restarts the countdown. -/
lemma step_call_mid (owner fid : Nat) (d : Int) (k : Key) (t t2 : Nat) (a a2 : List Nat)
    (tr : List (Nat × Nat × List Nat)) :
    step (.call ⟨fid, owner, d, k⟩ a2 t2) (midState owner k d fid t a tr)
      = midState owner k d fid t2 a2
          (tr ++ if t + d.toNat < t2 then [(t + d.toNat, fid, a)] else []) := by
  by_cases h : t + d.toNat < t2
  · simp [step, midState, fireDue, nextDue, dueB, h, fireOne, findTimer, setTimer,
          callWrapper, lookupTimer, findProp, startTimer, connectAction, disconnectAll,
          pendingTimer]
  · simp [step, midState, fireDue, nextDue, dueB, h, fireOne, findTimer, setTimer,
          callWrapper, lookupTimer, findProp, startTimer, connectAction, disconnectAll,
          pendingTimer]

/-- Draining the event loop fires the pending call. -/
lemma flushAll_mid (owner fid : Nat) (d : Int) (k : Key) (t : Nat) (a : List Nat)
    (tr : List (Nat × Nat × List Nat)) :
    flushAll (midState owner k d fid t a tr) = firedState owner k d fid t a tr := by
  simp [flushAll, midState, fireDue, nextDue, dueB, fireOne, findTimer, setTimer,
        firedState, pendingTimer]

/-- After the firing the timer is stopped, so draining again does nothing:
the retained connection cannot fire a second time. -/
lemma flushAll_fired (owner fid : Nat) (d : Int) (k : Key) (t : Nat) (a : List Nat)
    (tr : List (Nat × Nat × List Nat)) :
    flushAll (firedState owner k d fid t a tr) = firedState owner k d fid t a tr := by
  simp [flushAll, firedState, fireDue, nextDue, dueB]

/-- A wrapper call after the firing: the retained stale connection is
disconnected and discarded, the new one installed, the countdown restarted. -/
lemma step_call_fired (owner fid : Nat) (d : Int) (k : Key) (t t2 : Nat) (a a2 : List Nat)
    (tr : List (Nat × Nat × List Nat)) :
    step (.call ⟨fid, owner, d, k⟩ a2 t2) (firedState owner k d fid t a tr)
      = midState owner k d fid t2 a2 (tr ++ [(t + d.toNat, fid, a)]) := by
  simp [step, firedState, fireDue, nextDue, dueB, callWrapper, lookupTimer, findProp,
        findTimer, setTimer, startTimer, connectAction, disconnectAll, midState,
        pendingTimer]

/-- Destroying the owner before the pending deadline kills the timer, its
connection and the property entry; nothing is added to the trace. -/
lemma step_destroy_mid (owner fid : Nat) (d : Int) (t t2 : Nat) (a : List Nat)
    (tr : List (Nat × Nat × List Nat)) (h : ¬ t + d.toNat < t2) :
    step (.destroy owner t2) (midState owner ⟨owner, 0⟩ d fid t a tr)
      = ⟨t2, [], [], 1, [], tr⟩ := by
  simp [step, midState, fireDue, nextDue, dueB, h, destroyOwner, pendingTimer]

/-- Folding a sequence of calls of one wrapper over a counting-down state:
the intermediate firings accumulate on the trace and the last call is left
pending. -/
lemma foldl_calls_mid (owner fid : Nat) (d : Int) (k : Key) :
    ∀ (calls : List (Nat × List Nat)) (t : Nat) (a : List Nat)
      (tr : List (Nat × Nat × List Nat)),
    (calls.map fun c => Event.call ⟨fid, owner, d, k⟩ c.2 c.1).foldl
        (fun s2 e => step e s2) (midState owner k d fid t a tr)
      = midState owner k d fid (pendingAfter t a calls).1 (pendingAfter t a calls).2
          (tr ++ firedDuring fid d.toNat t a calls) := by
  intro calls
  induction calls with
  | nil => intro t a tr; simp [pendingAfter, firedDuring]
  | cons c rest ih =>
      intro t a tr
      obtain ⟨t2, a2⟩ := c
      simp only [List.map_cons, List.foldl_cons, step_call_mid, pendingAfter, firedDuring]
      rw [ih, List.append_assoc]

/-- Normal form of a complete single-wrapper run: the firings that happened
during the run, then the final pending call fires when the loop drains. -/
lemma run_calls_state (owner fid : Nat) (d : Int) (k : Key) (t1 : Nat) (a1 : List Nat)
    (rest : List (Nat × List Nat)) :
    run (((t1, a1) :: rest).map fun c => Event.call ⟨fid, owner, d, k⟩ c.2 c.1)
        (initState owner)
      = firedState owner k d fid (pendingAfter t1 a1 rest).1 (pendingAfter t1 a1 rest).2
          (firedDuring fid d.toNat t1 a1 rest) := by
  simp only [run, List.map_cons, List.foldl_cons, step_call_init, foldl_calls_mid,
             List.nil_append, flushAll_mid]

/-- In a burst — ascending call times, consecutive gaps all below `dN` — no
firing happens between the calls. -/
lemma firedDuring_eq_nil (fid dN : Nat) :
    ∀ (l : List (Nat × List Nat)) (t : Nat) (a : List Nat),
    monoFrom t l = true → gapsBelowFrom dN t l = true → firedDuring fid dN t a l = [] := by
  intro l
  induction l with
  | nil => intro t a _ _; rfl
  | cons c rest ih =>
      intro t a hm hg
      obtain ⟨t2, a2⟩ := c
      simp only [monoFrom, gapsBelowFrom, Bool.and_eq_true, decide_eq_true_eq] at hm hg
      have hnot : ¬ t + dN < t2 := by omega
      simp [firedDuring, hnot, ih t2 a2 hm.2 hg.2]

/-- The last pending call is the last list entry. -/
lemma pendingAfter_eq_getLastD :
    ∀ (l : List (Nat × List Nat)) (t : Nat) (a : List Nat),
    pendingAfter t a l = l.getLastD (t, a) := by
  intro l
  induction l with
  | nil => intro t a; rfl
  | cons c rest ih =>
      intro t a
      obtain ⟨t2, a2⟩ := c
      simp only [pendingAfter, List.getLastD_cons, ih]

/-- Ascending times: every listed call is at or after `t`. -/
lemma monoFrom_le : ∀ (l : List (Nat × List Nat)) (t : Nat), monoFrom t l = true →
    ∀ c ∈ l, t ≤ c.1 := by
  intro l
  induction l with
  | nil => intro t _ c hc; cases hc
  | cons c2 rest ih =>
      intro t hm c hc
      obtain ⟨t2, a2⟩ := c2
      simp only [monoFrom, Bool.and_eq_true, decide_eq_true_eq] at hm
      rcases List.mem_cons.mp hc with h | h
      · rw [h]; exact hm.1
      · exact le_trans hm.1 (ih t2 hm.2 c h)

/-- Every intermediate firing stems from some listed call, happens exactly
`dN` after it, and no listed call lies in between that call and the firing:
the firing is `dN` after the most recent call before it. -/
lemma firedDuring_mem_spec (fid dN : Nat) :
    ∀ (l : List (Nat × List Nat)) (t : Nat) (a : List Nat),
    monoFrom t l = true →
    ∀ e ∈ firedDuring fid dN t a l,
      ∃ tc ac, e = (tc + dN, fid, ac) ∧ (tc, ac) ∈ (t, a) :: l
        ∧ ∀ c ∈ (t, a) :: l, c.1 ≤ tc + dN → c.1 ≤ tc := by
  intro l
  induction l with
  | nil => intro t a _ e he; cases he
  | cons c2 rest ih =>
      intro t a hm e he
      obtain ⟨t2, a2⟩ := c2
      simp only [monoFrom, Bool.and_eq_true, decide_eq_true_eq] at hm
      simp only [firedDuring, List.mem_append] at he
      rcases he with he | he
      · by_cases hdue : t + dN < t2
        · simp only [if_pos hdue, List.mem_singleton] at he
          refine ⟨t, a, he, List.mem_cons_self _ _, ?_⟩
          intro c hc hle
          rcases List.mem_cons.mp hc with h | h
          · rw [h]
          · have := monoFrom_le ((t2, a2) :: rest) t2
              (by simp [monoFrom, hm.2]) c h
            omega
        · simp only [if_neg hdue] at he
          cases he
      · obtain ⟨tc, ac, he2, hmem, hrec⟩ := ih t2 a2 hm.2 e he
        have htc : t ≤ tc := by
          rcases List.mem_cons.mp hmem with h | h
          · have : tc = t2 := congrArg Prod.fst h
            omega
          · exact le_trans hm.1 (monoFrom_le rest t2 hm.2 (tc, ac) h)
        exact ⟨tc, ac, he2, List.mem_cons_of_mem _ hmem,
          fun c hc hle => by
            rcases List.mem_cons.mp hc with h | h
            · rw [h]; exact htc
            · exact hrec c h hle⟩

/-- The final pending call is one of the calls issued. -/
lemma pendingAfter_mem : ∀ (l : List (Nat × List Nat)) (t : Nat) (a : List Nat),
    pendingAfter t a l ∈ (t, a) :: l := by
  intro l
  induction l with
  | nil => intro t a; exact List.mem_cons_self _ _
  | cons c rest ih =>
      intro t a
      obtain ⟨t2, a2⟩ := c
      exact List.mem_cons_of_mem _ (ih t2 a2)

/-- The final pending call is the latest one. -/
lemma pendingAfter_ge : ∀ (l : List (Nat × List Nat)) (t : Nat) (a : List Nat),
    monoFrom t l = true → ∀ c ∈ (t, a) :: l, c.1 ≤ (pendingAfter t a l).1 := by
  intro l
  induction l with
  | nil =>
      intro t a _ c hc
      simp only [List.mem_singleton] at hc
      rw [hc]
      exact le_rfl
  | cons c2 rest ih =>
      intro t a hm c hc
      obtain ⟨t2, a2⟩ := c2
      simp only [monoFrom, Bool.and_eq_true, decide_eq_true_eq] at hm
      simp only [pendingAfter]
      rcases List.mem_cons.mp hc with h | h
      · rw [h]
        exact le_trans hm.1 (ih t2 a2 hm.2 (t2, a2) (List.mem_cons_self _ _))
      · exact ih t2 a2 hm.2 c h

/-- A wrapper invocation never appends to the trace: the wrapped function is
never executed synchronously inside the wrapper call. -/
lemma callWrapper_trace (v : Wrapper) (args : List Nat) (s : DState) :
    (callWrapper v args s).trace = s.trace := by
  unfold callWrapper
  split
  · cases hl : lookupTimer v s with
    | none => rfl
    | some p => obtain ⟨tid, tm⟩ := p; rfl
  · rfl

/-- Members of the updated timer list either carry the new timer value or
were already present. -/
lemma mem_setTimer (tid : Nat) (tm : Timer) :
    ∀ (l : List (Nat × Timer)) (p : Nat × Timer),
    p ∈ setTimer tid tm l → p.2 = tm ∨ p ∈ l := by
  intro l
  induction l with
  | nil => intro p h; exact Or.inr h
  | cons q rest ih =>
      intro p h
      obtain ⟨i, tm2⟩ := q
      by_cases hi : i = tid
      · simp only [setTimer, if_pos hi] at h
        rcases List.mem_cons.mp h with h2 | h2
        · exact Or.inl (congrArg Prod.snd h2)
        · exact Or.inr (List.mem_cons_of_mem _ h2)
      · simp only [setTimer, if_neg hi] at h
        rcases List.mem_cons.mp h with h2 | h2
        · exact Or.inr (by rw [h2]; exact List.mem_cons_self _ _)
        · rcases ih p h2 with h3 | h3
          · exact Or.inl h3
          · exact Or.inr (List.mem_cons_of_mem _ h3)

/-- A successful timer lookup is a membership. -/
lemma findTimer_mem (tid : Nat) (tm : Timer) :
    ∀ l : List (Nat × Timer), findTimer tid l = some tm → (tid, tm) ∈ l := by
  intro l
  induction l with
  | nil => intro h; cases h
  | cons q rest ih =>
      intro h
      obtain ⟨i, tm2⟩ := q
      by_cases hi : i = tid
      · simp only [findTimer, if_pos hi] at h
        rw [Option.some_inj] at h
        rw [← hi, ← h]
        exact List.mem_cons_self _ _
      · simp only [findTimer, if_neg hi] at h
        exact List.mem_cons_of_mem _ (ih h)

/-- Updating a present timer id makes lookups return the new value. -/
lemma findTimer_setTimer (tid : Nat) (tm tm0 : Timer) :
    ∀ l : List (Nat × Timer), findTimer tid l = some tm0 →
    findTimer tid (setTimer tid tm l) = some tm := by
  intro l
  induction l with
  | nil => intro h; cases h
  | cons q rest ih =>
      intro h
      obtain ⟨i, tm2⟩ := q
      by_cases hi : i = tid
      · simp [setTimer, if_pos hi, findTimer]
      · simp only [findTimer, if_neg hi] at h
        simp only [setTimer, if_neg hi, findTimer, if_neg hi]
        exact ih h

/-- A wrapper call preserves the one-connection bound: it installs exactly
one fresh connection on its timer and touches no other timer. -/
lemma connInv_callWrapper (v : Wrapper) (args : List Nat) (s : DState)
    (h : connInv s) : connInv (callWrapper v args s) := by
  unfold callWrapper
  split
  · cases hl : lookupTimer v s with
    | some p =>
        obtain ⟨tid, tm⟩ := p
        intro q hq
        simp only at hq
        rcases mem_setTimer _ _ _ _ hq with h1 | h1
        · rw [h1]; simp [startTimer, connectAction, disconnectAll]
        · exact h q h1
    | none =>
        intro q hq
        simp only at hq
        rcases mem_setTimer _ _ _ _ hq with h1 | h1
        · rw [h1]; simp [startTimer, connectAction, disconnectAll]
        · rcases List.mem_cons.mp h1 with h2 | h2
          · rw [h2]; simp [newTimer]
          · exact h q h2
  · exact h

/-- Firing a timer preserves the one-connection bound: it only stops the
timer and leaves every connection list unchanged. -/
lemma connInv_fireOne (tid dl : Nat) (s : DState) (h : connInv s) :
    connInv (fireOne tid dl s) := by
  unfold fireOne
  cases hf : findTimer tid s.timers with
  | none => exact h
  | some tm =>
      intro q hq
      simp only at hq
      rcases mem_setTimer _ _ _ _ hq with h1 | h1
      · rw [h1]
        exact h (tid, tm) (findTimer_mem _ _ _ hf)
      · exact h q h1

lemma connInv_fireDue (bound : Option Nat) :
    ∀ (fuel : Nat) (s : DState), connInv s → connInv (fireDue bound fuel s) := by
  intro fuel
  induction fuel with
  | zero => intro s h; exact h
  | succ n ih =>
      intro s h
      unfold fireDue
      cases nextDue bound s.timers with
      | none => exact h
      | some p => obtain ⟨dl, tid⟩ := p; exact ih _ (connInv_fireOne _ _ _ h)

lemma connInv_destroyOwner (o : Nat) (s : DState) (h : connInv s) :
    connInv (destroyOwner o s) := by
  intro q hq
  exact h q (List.mem_of_mem_filter hq)

lemma connInv_step (e : Event) (s : DState) (h : connInv s) : connInv (step e s) := by
  cases e with
  | call w args t =>
      exact connInv_callWrapper _ _ _ (connInv_fireDue _ _ _ h)
  | destroy o t =>
      exact connInv_destroyOwner _ _ (connInv_fireDue _ _ _ h)

/-- Every state reachable by a run satisfies the one-connection bound. -/
lemma connInv_run (es : List Event) :
    ∀ s : DState, connInv s → connInv (run es s) := by
  have hfold : ∀ (l : List Event) (s : DState), connInv s →
      connInv (l.foldl (fun s2 e => step e s2) s) := by
    intro l
    induction l with
    | nil => intro s h; exact h
    | cons e rest ih => intro s h; exact ih _ (connInv_step e s h)
  intro s h
  exact connInv_fireDue _ _ _ (hfold es s h)

lemma connInv_init (owner : Nat) : connInv (initState owner) := by
  intro q hq
  cases hq

/-- The timer found by the wrapper's property lookup is in the timer list. -/
lemma lookupTimer_findTimer (v : Wrapper) (s : DState) (tid : Nat) (tm : Timer)
    (h : lookupTimer v s = some (tid, tm)) : findTimer tid s.timers = some tm := by
  unfold lookupTimer at h
  cases hp : findProp v.key s.props with
  | none => simp [hp] at h
  | some tid2 =>
      simp only [hp] at h
      cases hf : findTimer tid2 s.timers with
      | none => simp [hf] at h
      | some tm2 =>
          simp only [hf, Option.some_inj, Prod.mk.injEq] at h
          rw [← h.1, ← h.2]
          exact hf

/-- A wrapper call on an existing timer replaces its connections with exactly
the one new action and restarts it. -/
lemma callWrapper_replaces (v : Wrapper) (args : List Nat) (s : DState) (tid : Nat)
    (tm : Timer) (hc : s.owners.contains v.ctx = true)
    (hl : lookupTimer v s = some (tid, tm)) :
    findTimer tid (callWrapper v args s).timers
      = some (startTimer s.time (connectAction ⟨v.funcId, args⟩ (disconnectAll tm))) := by
  simp only [callWrapper, hc, if_true, hl]
  exact findTimer_setTimer tid _ tm s.timers (lookupTimer_findTimer v s tid tm hl)

/-- C1: Burst coalescing.  For a wrapper returned by `debounce` and any
nonempty sequence of wrapper invocations at ascending times spaced less than
`durationMs` apart, the wrapped function executes exactly once for the burst,
with the argument tuple of the last invocation, exactly `durationMs` after
that last invocation. -/
theorem burst_single_firing (ftype fid owner : Nat) (d : Int) (w : Wrapper) (cs : ConsState)
    (hw : debounce ftype fid owner d initCons = some (w, cs))
    (t1 : Nat) (a1 : List Nat) (rest : List (Nat × List Nat))
    (hmono : monoFrom t1 rest = true)
    (hburst : gapsBelowFrom d.toNat t1 rest = true) :
    (run (((t1, a1) :: rest).map fun c => Event.call w c.2 c.1) (initState owner)).trace
      = [((rest.getLastD (t1, a1)).1 + d.toNat, fid, (rest.getLastD (t1, a1)).2)] := by
  obtain ⟨hwv, -, -⟩ := debounce_initCons_eq ftype fid owner d w cs hw
  subst hwv
  rw [run_calls_state]
  simp [firedState, firedDuring_eq_nil fid d.toNat rest t1 a1 hmono hburst,
        pendingAfter_eq_getLastD]

/-- Witness for C1: the spec's own example — calls at t = 0, 50, 90 with
`durationMs = 100` fire once, at t = 190, with the arguments of the call at
t = 90. -/
theorem burst_single_firing_witness :
    (run [Event.call ⟨7, 1, 100, ⟨1, 0⟩⟩ [1] 0, Event.call ⟨7, 1, 100, ⟨1, 0⟩⟩ [2] 50,
          Event.call ⟨7, 1, 100, ⟨1, 0⟩⟩ [3] 90] (initState 1)).trace = [(190, 7, [3])] :=
  burst_single_firing 0 7 1 100 ⟨7, 1, 100, ⟨1, 0⟩⟩ ⟨[(0, 1)]⟩ (by decide)
    0 [1] [(50, [2]), (90, [3])] (by decide) (by decide)

/-- C2: the claim that two wrappers from two `debounce` calls on the same
owner always get distinct keys is FALSE for distinct callable types: the
`static std::size_t debounce_counter` local of the function template is one
counter per specialization, so two `debounce` calls instantiated at distinct
closure types both read counter value `0` and mint the same key
`"_debounce_timer_<ctx>_0"`.  Invoking the second wrapper then reuses the
first wrapper's timer and cancels its pending firing: below, wrapper 1
(function 10) alone would fire at t = 100, but after wrapper 2's call at
t = 50 only function 20 ever fires. -/
theorem key_collision_distinct_types :
    debounce 0 10 1 100 initCons = some (⟨10, 1, 100, ⟨1, 0⟩⟩, ⟨[(0, 1)]⟩)
    ∧ debounce 1 20 1 100 ⟨[(0, 1)]⟩ = some (⟨20, 1, 100, ⟨1, 0⟩⟩, ⟨[(0, 1), (1, 1)]⟩)
    ∧ (⟨10, 1, 100, ⟨1, 0⟩⟩ : Wrapper).key = (⟨20, 1, 100, ⟨1, 0⟩⟩ : Wrapper).key
    ∧ (run [Event.call ⟨10, 1, 100, ⟨1, 0⟩⟩ [5] 0] (initState 1)).trace = [(100, 10, [5])]
    ∧ (run [Event.call ⟨10, 1, 100, ⟨1, 0⟩⟩ [5] 0, Event.call ⟨20, 1, 100, ⟨1, 0⟩⟩ [6] 50]
          (initState 1)).trace = [(150, 20, [6])] := by
  refine ⟨by decide, by decide, by decide, by decide, by decide⟩

/-- C4 counterexample: after the timer fires, the connected action and its
captured arguments are NOT cleared — the firing is on the trace, yet the
timer still carries the connection `⟨7, [3]⟩` (the source never disconnects
inside the timeout handler; the connection is only removed by the disconnect
at the start of the next wrapper call). -/
theorem post_fire_action_retained :
    debounce 0 7 1 100 initCons = some (⟨7, 1, 100, ⟨1, 0⟩⟩, ⟨[(0, 1)]⟩)
    ∧ (run [Event.call ⟨7, 1, 100, ⟨1, 0⟩⟩ [3] 0] (initState 1)).trace = [(100, 7, [3])]
    ∧ findTimer 0 (run [Event.call ⟨7, 1, 100, ⟨1, 0⟩⟩ [3] 0] (initState 1)).timers
        = some ⟨100, true, 1, [⟨7, [3]⟩], none⟩
    ∧ ¬ findTimer 0 (run [Event.call ⟨7, 1, 100, ⟨1, 0⟩⟩ [3] 0] (initState 1)).timers
        = some ⟨100, true, 1, [], none⟩ := by
  refine ⟨by decide, by decide, by decide, by decide⟩

/-- C4 (amended): when the timer elapses, the wrapped function runs with the
captured pending arguments and the single-shot timer stops; the action and
its captured arguments remain attached to the stopped timer (they are not
cleared at firing time), cannot fire again while no new wrapper call occurs,
and are discarded by the disconnect at the start of the next wrapper call,
which installs the new action in their place. -/
theorem post_fire_state (ftype fid owner : Nat) (d : Int) (w : Wrapper) (cs : ConsState)
    (hw : debounce ftype fid owner d initCons = some (w, cs)) (t : Nat) (a : List Nat) :
    (run [Event.call w a t] (initState owner)).trace = [(t + d.toNat, fid, a)]
    ∧ (run [Event.call w a t] (initState owner)).timers
        = [(0, ⟨d, true, owner, [⟨fid, a⟩], none⟩)]
    ∧ flushAll (run [Event.call w a t] (initState owner))
        = run [Event.call w a t] (initState owner)
    ∧ ∀ (a2 : List Nat) (t2 : Nat),
        step (Event.call w a2 t2) (run [Event.call w a t] (initState owner))
          = midState owner ⟨owner, 0⟩ d fid t2 a2 [(t + d.toNat, fid, a)] := by
  obtain ⟨hwv, -, -⟩ := debounce_initCons_eq ftype fid owner d w cs hw
  subst hwv
  have h1 : run [Event.call (⟨fid, owner, d, ⟨owner, 0⟩⟩ : Wrapper) a t] (initState owner)
      = firedState owner ⟨owner, 0⟩ d fid t a [] := by
    unfold run
    simp only [List.foldl_cons, List.foldl_nil, step_call_init, flushAll_mid]
  rw [h1]
  refine ⟨by simp [firedState], by simp [firedState], flushAll_fired owner fid d ⟨owner, 0⟩ t a [],
    fun a2 t2 => ?_⟩
  rw [step_call_fired]
  simp

/-- Witness for C4's amended theorem at a concrete input. -/
theorem post_fire_state_witness :
    (run [Event.call ⟨7, 1, 100, ⟨1, 0⟩⟩ [3] 0] (initState 1)).trace = [(100, 7, [3])]
    ∧ (run [Event.call ⟨7, 1, 100, ⟨1, 0⟩⟩ [3] 0] (initState 1)).timers
        = [(0, ⟨100, true, 1, [⟨7, [3]⟩], none⟩)]
    ∧ flushAll (run [Event.call ⟨7, 1, 100, ⟨1, 0⟩⟩ [3] 0] (initState 1))
        = run [Event.call ⟨7, 1, 100, ⟨1, 0⟩⟩ [3] 0] (initState 1)
    ∧ ∀ (a2 : List Nat) (t2 : Nat),
        step (Event.call ⟨7, 1, 100, ⟨1, 0⟩⟩ a2 t2)
            (run [Event.call ⟨7, 1, 100, ⟨1, 0⟩⟩ [3] 0] (initState 1))
          = midState 1 ⟨1, 0⟩ 100 7 t2 a2 [(100, 7, [3])] :=
  post_fire_state 0 7 1 100 ⟨7, 1, 100, ⟨1, 0⟩⟩ ⟨[(0, 1)]⟩ (by decide) 0 [3]

/-- C6: Quiescence.  Two wrapper invocations spaced farther apart than
`durationMs` produce two separate firings, the first with the first call's
arguments, the second with the second call's arguments. -/
theorem quiescence_two_firings (ftype fid owner : Nat) (d : Int) (w : Wrapper) (cs : ConsState)
    (hw : debounce ftype fid owner d initCons = some (w, cs))
    (t1 t2 : Nat) (a1 a2 : List Nat) (hgap : t1 + d.toNat < t2) :
    (run [Event.call w a1 t1, Event.call w a2 t2] (initState owner)).trace
      = [(t1 + d.toNat, fid, a1), (t2 + d.toNat, fid, a2)] := by
  obtain ⟨hwv, -, -⟩ := debounce_initCons_eq ftype fid owner d w cs hw
  subst hwv
  have hm : [Event.call (⟨fid, owner, d, ⟨owner, 0⟩⟩ : Wrapper) a1 t1,
      Event.call (⟨fid, owner, d, ⟨owner, 0⟩⟩ : Wrapper) a2 t2]
      = ((t1, a1) :: [(t2, a2)]).map
          fun c => Event.call (⟨fid, owner, d, ⟨owner, 0⟩⟩ : Wrapper) c.2 c.1 := rfl
  rw [hm, run_calls_state]
  simp [firedState, firedDuring, pendingAfter, hgap]

/-- Witness for C6: calls at t = 0 and t = 200 with `durationMs = 100` fire
twice, at t = 100 and t = 300, each with its own arguments. -/
theorem quiescence_two_firings_witness :
    (run [Event.call ⟨7, 1, 100, ⟨1, 0⟩⟩ [1] 0, Event.call ⟨7, 1, 100, ⟨1, 0⟩⟩ [2] 200]
        (initState 1)).trace = [(100, 7, [1]), (300, 7, [2])] :=
  quiescence_two_firings 0 7 1 100 ⟨7, 1, 100, ⟨1, 0⟩⟩ ⟨[(0, 1)]⟩ (by decide)
    0 200 [1] [2] (by decide)

/-- C9: Precondition enforcement.  A null context makes the assertion fail
(no wrapper is produced), a negative duration makes the assertion fail, and
under the two preconditions construction succeeds. -/
theorem debounce_preconditions (ftype fid ctx : Nat) (d : Int) (cs : ConsState) :
    debounce ftype fid 0 d cs = none
    ∧ (d < 0 → debounce ftype fid ctx d cs = none)
    ∧ (ctx ≠ 0 → 0 ≤ d → ∃ w cs2, debounce ftype fid ctx d cs = some (w, cs2)) := by
  refine ⟨by simp [debounce], fun hd => ?_, fun h0 hd => ?_⟩
  · by_cases h0 : ctx = 0 <;> simp [debounce, h0, hd]
  · simp [debounce, h0, not_lt.mpr hd]

/-- Witness for C9 at concrete inputs. -/
theorem debounce_preconditions_witness :
    debounce 0 7 0 300 initCons = none
    ∧ debounce 0 7 1 (-1) initCons = none
    ∧ ∃ w cs2, debounce 0 7 1 300 initCons = some (w, cs2) :=
  ⟨(debounce_preconditions 0 7 1 300 initCons).1,
   (debounce_preconditions 0 7 1 (-1) initCons).2.1 (by decide),
   (debounce_preconditions 0 7 1 300 initCons).2.2 (by decide) (by decide)⟩

/-- C3: Single pending schedule.  In every state reachable by any event
sequence, every timer holds at most one `timeout` connection; and a wrapper
call on an existing timer first discards the previous connection (with its
captured argument tuple) and then installs exactly the new one, restarting
the countdown. -/
theorem single_pending_schedule (owner : Nat) (es : List Event) :
    (∀ p ∈ (run es (initState owner)).timers, p.2.connections.length ≤ 1)
    ∧ ∀ (v : Wrapper) (args : List Nat) (s : DState) (tid : Nat) (tm : Timer),
        s.owners.contains v.ctx = true → lookupTimer v s = some (tid, tm) →
        findTimer tid (callWrapper v args s).timers
          = some (startTimer s.time (connectAction ⟨v.funcId, args⟩ (disconnectAll tm))) :=
  ⟨connInv_run es (initState owner) (connInv_init owner),
   fun v args s tid tm hc hl => callWrapper_replaces v args s tid tm hc hl⟩

/-- Witness for C3 at a concrete reachable state and a concrete replacement
call: the action `⟨7, [3]⟩` left on the fired timer is replaced by `⟨7, [4]⟩`
alone. -/
theorem single_pending_schedule_witness :
    ((0, (⟨100, true, 1, [⟨7, [3]⟩], none⟩ : Timer)) : Nat × Timer).2.connections.length ≤ 1
    ∧ findTimer 0 (callWrapper ⟨7, 1, 100, ⟨1, 0⟩⟩ [4]
          (firedState 1 ⟨1, 0⟩ 100 7 0 [3] [])).timers
        = some (startTimer 0 (connectAction ⟨7, [4]⟩
            (disconnectAll ⟨100, true, 1, [⟨7, [3]⟩], none⟩))) :=
  ⟨(single_pending_schedule 1 [Event.call ⟨7, 1, 100, ⟨1, 0⟩⟩ [3] 0]).1
      (0, ⟨100, true, 1, [⟨7, [3]⟩], none⟩) (by decide),
   (single_pending_schedule 1 []).2 ⟨7, 1, 100, ⟨1, 0⟩⟩ [4]
      (firedState 1 ⟨1, 0⟩ 100 7 0 [3] []) 0 ⟨100, true, 1, [⟨7, [3]⟩], none⟩
      (by decide) (by decide)⟩

/-- C5: No synchronous invocation.  A wrapper call never extends the firing
trace (the wrapped function is not executed during the wrapper call), and in
a single-wrapper run with ascending call times every firing happens exactly
`durationMs` after one of the calls, with no other call between that call
and the firing — i.e. no earlier than `durationMs` after the most recent
wrapper call. -/
theorem no_sync_invocation (ftype fid owner : Nat) (d : Int) (w : Wrapper) (cs : ConsState)
    (hw : debounce ftype fid owner d initCons = some (w, cs))
    (t1 : Nat) (a1 : List Nat) (rest : List (Nat × List Nat))
    (hmono : monoFrom t1 rest = true) :
    (∀ (v : Wrapper) (args : List Nat) (s : DState), (callWrapper v args s).trace = s.trace)
    ∧ ∀ e ∈ (run (((t1, a1) :: rest).map fun c => Event.call w c.2 c.1)
          (initState owner)).trace,
        ∃ tc ac, e = (tc + d.toNat, fid, ac) ∧ (tc, ac) ∈ (t1, a1) :: rest
          ∧ ∀ c ∈ (t1, a1) :: rest, c.1 ≤ tc + d.toNat → c.1 ≤ tc := by
  obtain ⟨hwv, -, -⟩ := debounce_initCons_eq ftype fid owner d w cs hw
  subst hwv
  refine ⟨callWrapper_trace, ?_⟩
  rw [run_calls_state]
  intro e he
  simp only [firedState, List.mem_append, List.mem_singleton] at he
  rcases he with he | he
  · exact firedDuring_mem_spec fid d.toNat rest t1 a1 hmono e he
  · refine ⟨(pendingAfter t1 a1 rest).1, (pendingAfter t1 a1 rest).2, he, ?_, ?_⟩
    · exact pendingAfter_mem rest t1 a1
    · intro c hc _
      exact pendingAfter_ge rest t1 a1 hmono c hc

/-- Witness for C5: a concrete wrapper call appends nothing to the trace. -/
theorem no_sync_invocation_witness :
    (callWrapper ⟨7, 1, 100, ⟨1, 0⟩⟩ [5] (initState 1)).trace = (initState 1).trace :=
  (no_sync_invocation 0 7 1 100 ⟨7, 1, 100, ⟨1, 0⟩⟩ ⟨[(0, 1)]⟩ (by decide) 0 [5] []
    (by decide)).1 ⟨7, 1, 100, ⟨1, 0⟩⟩ [5] (initState 1)

/-- C7: Construction purity and lazy timer lifecycle.  `debounce` itself
transforms only the static-counter state (the embedding gives it no access
to the world state, mirroring the source, whose body only reads the
context's address); a run with no wrapper invocation leaves the world
untouched, and after any nonempty call sequence exactly one timer was ever
allocated (id 0, fresh-id counter still 1), owned by the context, with the
creating wrapper's interval, registered in the property bag under the
wrapper's key and reused by every later call. -/
theorem construction_pure_lazy_timer (ftype fid owner : Nat) (d : Int) (w : Wrapper)
    (cs : ConsState) (hw : debounce ftype fid owner d initCons = some (w, cs))
    (t1 : Nat) (a1 : List Nat) (rest : List (Nat × List Nat)) :
    run [] (initState owner) = initState owner
    ∧ (run (((t1, a1) :: rest).map fun c => Event.call w c.2 c.1) (initState owner)).timers
        = [(0, ⟨d, true, owner, [⟨fid, (pendingAfter t1 a1 rest).2⟩], none⟩)]
    ∧ (run (((t1, a1) :: rest).map fun c => Event.call w c.2 c.1)
          (initState owner)).nextTimerId = 1
    ∧ findProp w.key (run (((t1, a1) :: rest).map fun c => Event.call w c.2 c.1)
          (initState owner)).props = some 0 := by
  obtain ⟨hwv, -, -⟩ := debounce_initCons_eq ftype fid owner d w cs hw
  subst hwv
  refine ⟨rfl, ?_, ?_, ?_⟩ <;> rw [run_calls_state] <;> simp [firedState, findProp]

/-- Witness for C7: two calls reuse the single timer created by the first. -/
theorem construction_pure_lazy_timer_witness :
    run [] (initState 1) = initState 1
    ∧ (run [Event.call ⟨7, 1, 100, ⟨1, 0⟩⟩ [1] 0, Event.call ⟨7, 1, 100, ⟨1, 0⟩⟩ [2] 50]
          (initState 1)).timers = [(0, ⟨100, true, 1, [⟨7, [2]⟩], none⟩)]
    ∧ (run [Event.call ⟨7, 1, 100, ⟨1, 0⟩⟩ [1] 0, Event.call ⟨7, 1, 100, ⟨1, 0⟩⟩ [2] 50]
          (initState 1)).nextTimerId = 1
    ∧ findProp ⟨1, 0⟩ (run [Event.call ⟨7, 1, 100, ⟨1, 0⟩⟩ [1] 0,
          Event.call ⟨7, 1, 100, ⟨1, 0⟩⟩ [2] 50] (initState 1)).props = some 0 :=
  construction_pure_lazy_timer 0 7 1 100 ⟨7, 1, 100, ⟨1, 0⟩⟩ ⟨[(0, 1)]⟩ (by decide)
    0 [1] [(50, [2])]

/-- C8: Owner teardown cancels the pending firing.  A wrapper call followed
by destruction of the owner at or before the pending deadline leaves an
empty trace (the wrapped function is never invoked), no timer (it died with
its parent) and no owner; the run is an ordinary total computation — the
drop is silent. -/
theorem owner_teardown_cancels (ftype fid owner : Nat) (d : Int) (w : Wrapper) (cs : ConsState)
    (hw : debounce ftype fid owner d initCons = some (w, cs))
    (t1 t2 : Nat) (a : List Nat) (hbefore : t2 ≤ t1 + d.toNat) :
    (run [Event.call w a t1, Event.destroy owner t2] (initState owner)).trace = []
    ∧ (run [Event.call w a t1, Event.destroy owner t2] (initState owner)).timers = []
    ∧ (run [Event.call w a t1, Event.destroy owner t2] (initState owner)).owners = [] := by
  obtain ⟨hwv, -, -⟩ := debounce_initCons_eq ftype fid owner d w cs hw
  subst hwv
  have h1 : run [Event.call (⟨fid, owner, d, ⟨owner, 0⟩⟩ : Wrapper) a t1,
      Event.destroy owner t2] (initState owner) = flushAll ⟨t2, [], [], 1, [], []⟩ := by
    unfold run
    simp only [List.foldl_cons, List.foldl_nil, step_call_init,
               step_destroy_mid owner fid d t1 t2 a [] (by omega)]
  rw [h1]
  exact ⟨rfl, rfl, rfl⟩

/-- Witness for C8: call at t = 0, owner destroyed at t = 50 < 100: no
firing, no timer, no owner left. -/
theorem owner_teardown_cancels_witness :
    (run [Event.call ⟨7, 1, 100, ⟨1, 0⟩⟩ [3] 0, Event.destroy 1 50] (initState 1)).trace = []
    ∧ (run [Event.call ⟨7, 1, 100, ⟨1, 0⟩⟩ [3] 0, Event.destroy 1 50]
          (initState 1)).timers = []
    ∧ (run [Event.call ⟨7, 1, 100, ⟨1, 0⟩⟩ [3] 0, Event.destroy 1 50]
          (initState 1)).owners = [] :=
  owner_teardown_cancels 0 7 1 100 ⟨7, 1, 100, ⟨1, 0⟩⟩ ⟨[(0, 1)]⟩ (by decide)
    0 50 [3] (by decide)

/-- C10: Copies of one wrapper share the debounce state.  A copy of the
returned lambda carries the same shared callable, the same context, the same
duration and an equal captured key string, so it is the same `Wrapper` value:
a burst whose calls are spread across two such copies still looks up the one
timer under the one key and yields exactly one firing, with the last call's
arguments. -/
theorem wrapper_copies_share_state (ftype fid owner : Nat) (d : Int) (w : Wrapper)
    (cs : ConsState) (hw : debounce ftype fid owner d initCons = some (w, cs))
    (w2 : Wrapper) (hf : w2.funcId = w.funcId) (hc : w2.ctx = w.ctx)
    (hd2 : w2.durationMs = w.durationMs) (hk : w2.key = w.key)
    (b1 : Bool) (t1 : Nat) (a1 : List Nat) (rest : List (Bool × Nat × List Nat))
    (hmono : monoFrom t1 (rest.map Prod.snd) = true)
    (hburst : gapsBelowFrom d.toNat t1 (rest.map Prod.snd) = true) :
    (run (Event.call (if b1 then w else w2) a1 t1 ::
          rest.map fun c => Event.call (if c.1 then w else w2) c.2.2 c.2.1)
        (initState owner)).trace
      = [(((rest.map Prod.snd).getLastD (t1, a1)).1 + d.toNat, fid,
          ((rest.map Prod.snd).getLastD (t1, a1)).2)] := by
  have hw2 : w2 = w := by
    obtain ⟨f2, c2, d2, k2⟩ := w2
    obtain ⟨f1, c1, d1, k1⟩ := w
    simp only at hf hc hd2 hk
    rw [hf, hc, hd2, hk]
  subst w2
  obtain ⟨hwv, -, -⟩ := debounce_initCons_eq ftype fid owner d w cs hw
  subst hwv
  simp only [ite_self]
  have hm : Event.call (⟨fid, owner, d, ⟨owner, 0⟩⟩ : Wrapper) a1 t1 ::
      (rest.map fun c => Event.call (⟨fid, owner, d, ⟨owner, 0⟩⟩ : Wrapper) c.2.2 c.2.1)
      = ((t1, a1) :: rest.map Prod.snd).map
          fun c => Event.call (⟨fid, owner, d, ⟨owner, 0⟩⟩ : Wrapper) c.2 c.1 := by
    simp only [List.map_cons, List.map_map]
    rfl
  rw [hm, run_calls_state]
  simp [firedState,
        firedDuring_eq_nil fid d.toNat (rest.map Prod.snd) t1 a1 hmono hburst,
        pendingAfter_eq_getLastD]

/-- Witness for C10: a burst at t = 0, 50, 90 alternating between two copies
of one wrapper fires once, at t = 190, with the last call's arguments. -/
theorem wrapper_copies_share_state_witness :
    (run (Event.call (if true then (⟨7, 1, 100, ⟨1, 0⟩⟩ : Wrapper) else ⟨7, 1, 100, ⟨1, 0⟩⟩)
            [1] 0 ::
          [((false : Bool), 50, [2]), ((true : Bool), 90, [3])].map
            fun c => Event.call
              (if c.1 then (⟨7, 1, 100, ⟨1, 0⟩⟩ : Wrapper) else ⟨7, 1, 100, ⟨1, 0⟩⟩)
              c.2.2 c.2.1)
        (initState 1)).trace = [(190, 7, [3])] :=
  wrapper_copies_share_state 0 7 1 100 ⟨7, 1, 100, ⟨1, 0⟩⟩ ⟨[(0, 1)]⟩ (by decide)
    ⟨7, 1, 100, ⟨1, 0⟩⟩ rfl rfl rfl rfl true 0 [1]
    [((false : Bool), 50, [2]), ((true : Bool), 90, [3])] (by decide) (by decide)

end Debouncer
